import Mathlib

/-!
Shallow embedding of the streaming-event client in `frontend/app.js`
(conversation state, SSE frame decoding, event dispatch, paginated
usage/history collection loading), together with theorems checking the
specification's claims against it.

Conventions of the embedding:
* JS strings are Lean `String`/`List Char`; raw response bytes are `List Nat`
  (each `< 256`).
* JS numbers appearing in pagination state are modelled as `Int`
  (the integral values actually exchanged by the pagination protocol).
* JSON values are the inductive `Json`; `jsonParse` models `JSON.parse`,
  `truthy` models JS truthiness of a parsed JSON value.
* DOM rendering (`renderStats`, `appendMessage`, ...) has no observable
  effect on the modelled state and is omitted; outbound requests, `onDelta`
  callbacks and `localStorage` writes are recorded as an effect trace.
-/

/-- Whitespace stripped by `String.prototype.trim` (the code points JS
treats as WhiteSpace or LineTerminator). -/
def isJsWs (c : Char) : Bool :=
  c = ' ' || c = '\t' || c = '\n' || c = '\r' ||
  c = Char.ofNat 0x0B || c = Char.ofNat 0x0C || c = Char.ofNat 0xA0 ||
  c = Char.ofNat 0x1680 ||
  (0x2000 ≤ c.toNat && c.toNat ≤ 0x200A) ||
  c = Char.ofNat 0x2028 || c = Char.ofNat 0x2029 || c = Char.ofNat 0x202F ||
  c = Char.ofNat 0x205F || c = Char.ofNat 0x3000 || c = Char.ofNat 0xFEFF

/-- JS `String.prototype.trim`: drop leading and trailing whitespace. -/
def jsTrim (cs : List Char) : List Char :=
  ((cs.dropWhile isJsWs).reverse.dropWhile isJsWs).reverse

/-- JSON values as produced by `JSON.parse`.  Numbers keep the numeral's
lexical parts (sign, integer digits, fraction digits, optional signed
exponent digits); no claim inspects numeric values beyond truthiness. -/
inductive Json where
  | null
  | bool (b : Bool)
  | num (neg : Bool) (intPart : List Char) (fracPart : List Char)
        (ex : Option (Bool × List Char))
  | str (s : String)
  | arr (elems : List Json)
  | obj (members : List (String × Json))

/-- Last-wins lookup of an object member, matching how `JSON.parse`
resolves duplicate keys. -/
def lookupLast (k : String) : List (String × Json) → Option Json
  | [] => none
  | kv :: rest =>
    match lookupLast k rest with
    | some v => some v
    | none => if kv.1 = k then some kv.2 else none

/-- Property access `j?.k` on a parsed JSON value: defined only on objects,
`undefined` (here `none`) on every other value. -/
def getField (j : Json) (k : String) : Option Json :=
  match j with
  | .obj ms => lookupLast k ms
  | _ => none

/-- JS truthiness of a parsed JSON value: `null`, `false`, `0` and `""` are
falsy; every other JSON value (including `{}` and `[]`) is truthy. -/
def truthy : Json → Bool
  | .null => false
  | .bool b => b
  | .str s => s ≠ ""
  | .num _ i f _ => (i ++ f).any (· ≠ '0')
  | .arr _ => true
  | .obj _ => true

/-- The field access pattern `data?.k` followed by a truthiness test:
returns the field value when it is present and truthy. -/
def truthyField (j : Json) (k : String) : Option Json :=
  match getField j k with
  | some v => if truthy v then some v else none
  | none => none

/-- The field access pattern `typeof data?.k === 'string'`: returns the
field's text when the field is present and is a string. -/
def strField (j : Json) (k : String) : Option String :=
  match getField j k with
  | some (.str t) => some t
  | _ => none

/-- Hexadecimal digit value, used for `\uXXXX` escapes in JSON strings. -/
def hexVal (c : Char) : Option Nat :=
  if '0' ≤ c ∧ c ≤ '9' then some (c.toNat - '0'.toNat)
  else if 'a' ≤ c ∧ c ≤ 'f' then some (c.toNat - 'a'.toNat + 10)
  else if 'A' ≤ c ∧ c ≤ 'F' then some (c.toNat - 'A'.toNat + 10)
  else none

/-- Decimal digit test used by the JSON number grammar. -/
def isDigit (c : Char) : Bool := '0' ≤ c && c ≤ '9'

/-- Whitespace accepted between JSON tokens by `JSON.parse`. -/
def isJsonWs (c : Char) : Bool := c = ' ' || c = '\t' || c = '\n' || c = '\r'

/-- Skip inter-token whitespace. -/
def skipWs (cs : List Char) : List Char := cs.dropWhile isJsonWs

/-- Value of a `\uXXXX` escape at the head of the input when it denotes a
low surrogate, used to pair it with a preceding high surrogate. -/
def lowSurrogateVal (r : List Char) : Option Nat :=
  match r with
  | '\\' :: 'u' :: g1 :: g2 :: g3 :: g4 :: _ =>
    match hexVal g1, hexVal g2, hexVal g3, hexVal g4 with
    | some a, some b, some c, some d =>
      let m := a * 4096 + b * 256 + c * 16 + d
      if 0xDC00 ≤ m ∧ m < 0xE000 then some m else none
    | _, _, _, _ => none
  | _ => none

/-- Fuel-indexed body of a JSON string literal after the opening quote:
returns the decoded content and the input following the closing quote.
Escapes follow the JSON grammar; an unpaired `\uXXXX` surrogate (not
representable as a Lean scalar `Char`) is decoded as U+FFFD. -/
def parseStringRestF : Nat → List Char → Option (List Char × List Char)
  | 0, _ => none
  | _, [] => none
  | _, '"' :: rest => some ([], rest)
  | fuel + 1, '\\' :: rest =>
    match rest with
    | '"' :: r => (parseStringRestF fuel r).map (fun p => ('"' :: p.1, p.2))
    | '\\' :: r => (parseStringRestF fuel r).map (fun p => ('\\' :: p.1, p.2))
    | '/' :: r => (parseStringRestF fuel r).map (fun p => ('/' :: p.1, p.2))
    | 'b' :: r => (parseStringRestF fuel r).map (fun p => (Char.ofNat 8 :: p.1, p.2))
    | 'f' :: r => (parseStringRestF fuel r).map (fun p => (Char.ofNat 12 :: p.1, p.2))
    | 'n' :: r => (parseStringRestF fuel r).map (fun p => ('\n' :: p.1, p.2))
    | 'r' :: r => (parseStringRestF fuel r).map (fun p => ('\r' :: p.1, p.2))
    | 't' :: r => (parseStringRestF fuel r).map (fun p => ('\t' :: p.1, p.2))
    | 'u' :: h1 :: h2 :: h3 :: h4 :: r =>
      match hexVal h1, hexVal h2, hexVal h3, hexVal h4 with
      | some a, some b, some c, some d =>
        let n := a * 4096 + b * 256 + c * 16 + d
        if 0xD800 ≤ n ∧ n < 0xDC00 then
          match lowSurrogateVal r with
          | some m =>
            (parseStringRestF fuel (r.drop 6)).map (fun p =>
              (Char.ofNat (0x10000 + (n - 0xD800) * 1024 + (m - 0xDC00)) :: p.1, p.2))
          | none => (parseStringRestF fuel r).map (fun p => (Char.ofNat 0xFFFD :: p.1, p.2))
        else if 0xDC00 ≤ n ∧ n < 0xE000 then
          (parseStringRestF fuel r).map (fun p => (Char.ofNat 0xFFFD :: p.1, p.2))
        else
          (parseStringRestF fuel r).map (fun p => (Char.ofNat n :: p.1, p.2))
      | _, _, _, _ => none
    | _ => none
  | fuel + 1, c :: rest =>
    if c.toNat < 0x20 then none
    else (parseStringRestF fuel rest).map (fun p => (c :: p.1, p.2))

/-- Body of a JSON string literal after the opening quote; fuel
`length + 1` suffices since every step consumes at least one character. -/
def parseStringRest (cs : List Char) : Option (List Char × List Char) :=
  parseStringRestF (cs.length + 1) cs

/-- Exponent part of a JSON number (after the mantissa). -/
def parseExponent (neg : Bool) (i f : List Char) (cs : List Char) :
    Option (Json × List Char) :=
  match cs with
  | 'e' :: r | 'E' :: r =>
    let (eneg, r2) :=
      match r with
      | '-' :: r2 => (true, r2)
      | '+' :: r2 => (false, r2)
      | _ => (false, r)
    let ds := r2.takeWhile isDigit
    if ds = [] then none
    else some (.num neg i f (some (eneg, ds)), r2.dropWhile isDigit)
  | _ => some (.num neg i f none, cs)

/-- Fraction and exponent parts of a JSON number (after the integer part). -/
def parseFraction (neg : Bool) (i : List Char) (cs : List Char) :
    Option (Json × List Char) :=
  match cs with
  | '.' :: r =>
    let ds := r.takeWhile isDigit
    if ds = [] then none
    else parseExponent neg i ds (r.dropWhile isDigit)
  | _ => parseExponent neg i [] cs

/-- JSON number literal: `-? (0 | [1-9][0-9]*) frac? exp?`. -/
def parseNumber (cs : List Char) : Option (Json × List Char) :=
  let p := match cs with
           | '-' :: r => (true, r)
           | _ => (false, cs)
  match p.2 with
  | c :: r =>
    if c = '0' then parseFraction p.1 ['0'] r
    else if isDigit c then
      parseFraction p.1 (c :: r.takeWhile isDigit) (r.dropWhile isDigit)
    else none
  | [] => none

mutual

/-- JSON value parser (`JSON.parse` grammar), with a fuel argument making
the mutual recursion structural. -/
def parseValue : Nat → List Char → Option (Json × List Char)
  | 0, _ => none
  | fuel + 1, cs =>
    match skipWs cs with
    | '{' :: r => parseObjBody fuel (skipWs r)
    | '[' :: r => parseArrBody fuel (skipWs r)
    | '"' :: r => (parseStringRest r).map (fun p => (.str p.1.asString, p.2))
    | 't' :: 'r' :: 'u' :: 'e' :: r => some (.bool true, r)
    | 'f' :: 'a' :: 'l' :: 's' :: 'e' :: r => some (.bool false, r)
    | 'n' :: 'u' :: 'l' :: 'l' :: r => some (.null, r)
    | other => parseNumber other

/-- Array body after the opening bracket and whitespace. -/
def parseArrBody : Nat → List Char → Option (Json × List Char)
  | 0, _ => none
  | fuel + 1, cs =>
    match cs with
    | ']' :: r => some (.arr [], r)
    | _ => parseArrItems fuel cs []

/-- One-or-more comma-separated array elements. -/
def parseArrItems : Nat → List Char → List Json → Option (Json × List Char)
  | 0, _, _ => none
  | fuel + 1, cs, acc =>
    match parseValue fuel cs with
    | none => none
    | some (v, r) =>
      match skipWs r with
      | ',' :: r2 => parseArrItems fuel r2 (acc ++ [v])
      | ']' :: r2 => some (.arr (acc ++ [v]), r2)
      | _ => none

/-- Object body after the opening brace and whitespace. -/
def parseObjBody : Nat → List Char → Option (Json × List Char)
  | 0, _ => none
  | fuel + 1, cs =>
    match cs with
    | '}' :: r => some (.obj [], r)
    | _ => parseObjItems fuel cs []

/-- One-or-more comma-separated object members. -/
def parseObjItems : Nat → List Char → List (String × Json) →
    Option (Json × List Char)
  | 0, _, _ => none
  | fuel + 1, cs, acc =>
    match skipWs cs with
    | '"' :: r =>
      match parseStringRest r with
      | none => none
      | some (key, r2) =>
        match skipWs r2 with
        | ':' :: r3 =>
          match parseValue fuel r3 with
          | none => none
          | some (v, r4) =>
            match skipWs r4 with
            | ',' :: r5 => parseObjItems fuel r5 (acc ++ [(key.asString, v)])
            | '}' :: r5 => some (.obj (acc ++ [(key.asString, v)]), r5)
            | _ => none
        | _ => none
    | _ => none

end

/-- Model of `JSON.parse`: parse one value, allow surrounding whitespace,
require full consumption; `none` models a thrown `SyntaxError` (fuel
`4*length+8` always suffices for the grammar's consumption rate). -/
def jsonParse (s : String) : Option Json :=
  match parseValue (4 * s.length + 8) s.data with
  | some (v, rest) => if skipWs rest = [] then some v else none
  | none => none

/-- Lexeme of a JSON number, echoed back for `String(...)` coercion (an
approximation of JS float formatting adequate for this model: no claim
inspects the printed form of a number). -/
def numLexeme (neg : Bool) (i f : List Char) (ex : Option (Bool × List Char)) : String :=
  (if neg then "-" else "") ++ i.asString ++
  (if f = [] then "" else "." ++ f.asString) ++
  (match ex with
   | none => ""
   | some (eneg, ds) => "e" ++ (if eneg then "-" else "") ++ ds.asString)

mutual

/-- JS `String(v)` coercion of a parsed JSON value (`Array.prototype.toString`
joins elements with commas, rendering `null` elements as empty). -/
def jsStringOf : Json → String
  | .null => "null"
  | .bool b => if b then "true" else "false"
  | .num neg i f ex => numLexeme neg i f ex
  | .str s => s
  | .arr xs => String.intercalate "," (jsArrParts xs)
  | .obj _ => "[object Object]"

/-- Elementwise rendering used by `Array.prototype.join`. -/
def jsArrParts : List Json → List String
  | [] => []
  | .null :: rest => "" :: jsArrParts rest
  | j :: rest => jsStringOf j :: jsArrParts rest

end

/-- An SSE event frame after decoding: event name plus parsed JSON payload. -/
structure Frame where
  name : String
  payload : Json

/-- JS `String.prototype.split('\n')`: split into lines, keeping empty
pieces (`""` splits to `[""]`). -/
def splitLines : List Char → List (List Char)
  | [] => [[]]
  | c :: rest =>
    if c = '\n' then [] :: splitLines rest
    else
      match splitLines rest with
      | l :: ls => (c :: l) :: ls
      | [] => [[c]]

/-- One iteration of the frame-block line loop: a line starting `event:`
replaces the event name with its trimmed remainder; a line starting `data:`
appends its trimmed remainder to the accumulated payload text. -/
def procLine (acc : String × String) (line : List Char) : String × String :=
  let ev := if line.take 6 = "event:".data then (jsTrim (line.drop 6)).asString else acc.1
  let dat := if line.take 5 = "data:".data then acc.2 ++ (jsTrim (line.drop 5)).asString else acc.2
  (ev, dat)

/-- Parse a frame-block into `(eventName, dataJson)`, with default event
name `"message"` and empty initial payload text. -/
def parseBlock (block : List Char) : String × String :=
  (splitLines block).foldl procLine ("message", "")

/-- Decode one frame-block: a block with no data text, or whose data text
fails to parse as JSON, yields no frame (it is silently discarded). -/
def frameOfBlock (block : List Char) : Option Frame :=
  let nd := parseBlock block
  if nd.2 = "" then none
  else
    match jsonParse nd.2 with
    | some j => some ⟨nd.1, j⟩
    | none => none

/-- Byte length of a UTF-8 sequence determined by its leading byte (stray
continuation bytes count as a single invalid unit). -/
def utf8Len (b : Nat) : Nat :=
  if b < 0x80 then 1 else if b < 0xC0 then 1 else if b < 0xE0 then 2
  else if b < 0xF0 then 3 else 4

/-- UTF-8 continuation byte test. -/
def isCont (b : Nat) : Bool := 0x80 ≤ b && b < 0xC0

/-- Decode one UTF-8 sequence from a leading byte and its continuation
bytes, validating continuations, overlong forms, surrogates and range. -/
def decodeCore (b : Nat) (conts : List Nat) : Option Char :=
  if b < 0x80 then
    match conts with
    | [] => some (Char.ofNat b)
    | _ => none
  else if b < 0xC2 then none
  else if b < 0xE0 then
    match conts with
    | [b1] => if isCont b1 then some (Char.ofNat ((b - 0xC0) * 64 + (b1 - 0x80))) else none
    | _ => none
  else if b < 0xF0 then
    match conts with
    | [b1, b2] =>
      if isCont b1 && isCont b2 then
        let v := (b - 0xE0) * 4096 + (b1 - 0x80) * 64 + (b2 - 0x80)
        if v < 0x800 then none
        else if 0xD800 ≤ v ∧ v < 0xE000 then none
        else some (Char.ofNat v)
      else none
    | _ => none
  else if b < 0xF5 then
    match conts with
    | [b1, b2, b3] =>
      if isCont b1 && isCont b2 && isCont b3 then
        let v := (b - 0xF0) * 262144 + (b1 - 0x80) * 4096 + (b2 - 0x80) * 64 + (b3 - 0x80)
        if v < 0x10000 ∨ 0x110000 ≤ v then none else some (Char.ofNat v)
      else none
    | _ => none
  else none

/-- Result of examining the head of the byte buffer in the incremental
UTF-8 decoder (`TextDecoder('utf-8')` with `stream: true`). -/
inductive Utf8Step where
  | done
  | oneChar (c : Char) (rest : List Nat)
  | needMore
  | bad (rest : List Nat)

/-- Decode a single UTF-8 unit from the front of the buffer: `needMore`
when the buffer holds fewer bytes than the lead byte announces (they are
retained for the next chunk), `bad` when the sequence is invalid (one byte
is consumed and replaced with U+FFFD, the non-fatal decoder behaviour). -/
def utf8DecodeOne : List Nat → Utf8Step
  | [] => .done
  | b :: rest =>
    let n := utf8Len b
    if rest.length + 1 < n then .needMore
    else
      match decodeCore b (rest.take (n - 1)) with
      | some c => .oneChar c (rest.drop (n - 1))
      | none => .bad rest

/-- Fuel-indexed greedy decoding loop over the byte buffer. -/
def utf8DecodeGreedyF : Nat → List Nat → List Char × List Nat
  | 0, bs => ([], bs)
  | fuel + 1, bs =>
    match utf8DecodeOne bs with
    | .done => ([], [])
    | .needMore => ([], bs)
    | .oneChar c rest =>
      let p := utf8DecodeGreedyF fuel rest
      (c :: p.1, p.2)
    | .bad rest =>
      let p := utf8DecodeGreedyF fuel rest
      (Char.ofNat 0xFFFD :: p.1, p.2)

/-- Greedy incremental UTF-8 decode of a byte buffer: decoded characters
plus the retained incomplete suffix. -/
def utf8DecodeGreedy (bs : List Nat) : List Char × List Nat :=
  utf8DecodeGreedyF (bs.length + 1) bs

/-- Standard UTF-8 encoding of a Unicode scalar value. -/
def utf8EncodeNat (v : Nat) : List Nat :=
  if v < 0x80 then [v]
  else if v < 0x800 then [0xC0 + v / 64, 0x80 + v % 64]
  else if v < 0x10000 then [0xE0 + v / 4096, 0x80 + v / 64 % 64, 0x80 + v % 64]
  else [0xF0 + v / 262144, 0x80 + v / 4096 % 64, 0x80 + v / 64 % 64, 0x80 + v % 64]

/-- UTF-8 encoding of a character. -/
def utf8EncodeChar (c : Char) : List Nat := utf8EncodeNat c.toNat

/-- Concatenation of a list of lists (chunked byte stream flattening). -/
def concatAll : List (List α) → List α
  | [] => []
  | l :: ls => l ++ concatAll ls

/-- UTF-8 encoding of a character sequence. -/
def utf8Encode (cs : List Char) : List Nat := concatAll (cs.map utf8EncodeChar)

/-- Leftmost occurrence of the `"\n\n"` frame separator: the text before
it and the text after it (`buffer.indexOf('\n\n')` plus the two slices). -/
def splitFirstSep : List Char → Option (List Char × List Char)
  | [] => none
  | [_] => none
  | c1 :: c2 :: rest =>
    if c1 = '\n' ∧ c2 = '\n' then some ([], rest)
    else (splitFirstSep (c2 :: rest)).map (fun p => (c1 :: p.1, p.2))

/-- Fuel-indexed loop extracting complete frame-blocks from the buffer. -/
def extractBlocksF : Nat → List Char → List (List Char) × List Char
  | 0, buf => ([], buf)
  | fuel + 1, buf =>
    match splitFirstSep buf with
    | none => ([], buf)
    | some (blk, rest) =>
      let p := extractBlocksF fuel rest
      (blk :: p.1, p.2)

/-- Extract all complete frame-blocks from the text buffer, retaining the
remainder after the last separator for the next chunk. -/
def extractBlocks (buf : List Char) : List (List Char) × List Char :=
  extractBlocksF (buf.length + 1) buf

/-- Decoder loop state: bytes of an incomplete UTF-8 sequence held by the
`TextDecoder`, and decoded text not yet terminated by a frame separator. -/
structure DecState where
  pending : List Nat
  buf : List Char

/-- Process one arriving byte chunk: decode it (prefixed by the pending
bytes), append to the text buffer, and extract complete frame-blocks. -/
def feedChunk (st : DecState) (chunk : List Nat) : DecState × List (List Char) :=
  let d := utf8DecodeGreedy (st.pending ++ chunk)
  let e := extractBlocks (st.buf ++ d.1)
  (⟨d.2, e.2⟩, e.1)

/-- Run the decoder over a whole chunk sequence, concatenating the
extracted frame-blocks; a trailing incomplete block is discarded. -/
def runChunks (st : DecState) : List (List Nat) → List (List Char)
  | [] => []
  | c :: cs =>
    let p := feedChunk st c
    p.2 ++ runChunks p.1 cs

/-- Frame-blocks decoded from a chunked byte stream, starting empty. -/
def decodeChunks (chunks : List (List Nat)) : List (List Char) :=
  runChunks ⟨[], []⟩ chunks

/-- Decoded `EventFrame` sequence of a chunked byte stream: frame-blocks
through `frameOfBlock` (malformed blocks silently dropped). -/
def framesOfChunks (chunks : List (List Nat)) : List Frame :=
  (decodeChunks chunks).filterMap frameOfBlock

/-- Observable effects of the client: outbound requests, `onDelta`
callbacks and `localStorage.setItem` persistence writes. -/
inductive Eff where
  | streamOpen (message : String) (conv : Option Json)
  | fetchUsage (conv : Json) (page : Int) (pageSize : Int)
  | fetchHistory (page : Int) (pageSize : Int)
  | deltaOut (text : String)
  | persistSave (id : Json)

/-- Typed view of a page-fetch JSON response body: each field is `some`
exactly when the body carries it with the type the client checks for
(`typeof data?.page === 'number'`, `Array.isArray(data?.items)`). -/
structure PageData where
  page : Option Int
  pageSize : Option Int
  total : Option Int
  items : Option (List Json)

/-- Outcome of one page fetch: the three failure modes all surface as a
thrown exception before any state assignment. -/
inductive FetchOutcome where
  | netError
  | httpNotOk
  | badJson
  | ok (data : PageData)

/-- The fetch failure modes (non-2xx status, network failure, unparseable
response body). -/
def isFetchFail : FetchOutcome → Bool
  | .netError => true
  | .httpNotOk => true
  | .badJson => true
  | .ok _ => false

/-- Server environment: the response each usage/history page fetch
would receive. -/
structure Env where
  usage : Json → Int → FetchOutcome
  history : Int → FetchOutcome

/-- Module-level mutable state of `app.js` (conversation identity,
pagination cursors of both collections, and whether the stats view is the
active, non-hidden view). -/
structure AppState where
  conversationId : Option Json
  usagePage : Int
  usagePageSize : Int
  usageTotal : Int
  usageItems : List Json
  historyPage : Int
  historyPageSize : Int
  historyTotal : Int
  historyItems : List Json
  statsVisible : Bool

/-- The truthiness test `if (conversationId)`: the identity when it is a
truthy value, `none` otherwise. -/
def convTruthy (s : AppState) : Option Json :=
  match s.conversationId with
  | some v => if truthy v then some v else none
  | none => none

/-- Result of an awaited page load: updated state, issued requests, and
whether the load threw (to be caught or ignored by the caller). -/
structure LoadOut where
  state : AppState
  effs : List Eff
  threw : Bool

/-- Model of `loadUsagePage(page)`: with a falsy conversation identity the
usage collection is reset without any request; otherwise a usage fetch is
issued and, on success, all four usage fields are replaced from the
response (server-echoed values take precedence, with fallbacks). -/
def loadUsagePage (env : Env) (s : AppState) (page : Int) : LoadOut :=
  match convTruthy s with
  | none => ⟨{ s with usagePage := 1, usageTotal := 0, usageItems := [] }, [], false⟩
  | some cid =>
    let req := Eff.fetchUsage cid page s.usagePageSize
    match env.usage cid page with
    | .ok d =>
      ⟨{ s with usagePage := d.page.getD page,
                usagePageSize := d.pageSize.getD s.usagePageSize,
                usageTotal := d.total.getD 0,
                usageItems := d.items.getD [] }, [req], false⟩
    | .netError => ⟨s, [req], true⟩
    | .httpNotOk => ⟨s, [req], true⟩
    | .badJson => ⟨s, [req], true⟩

/-- Model of `loadHistoryPage(page)`: always issues the history fetch; on
success all four history fields are replaced from the response. -/
def loadHistoryPage (env : Env) (s : AppState) (page : Int) : LoadOut :=
  let req := Eff.fetchHistory page s.historyPageSize
  match env.history page with
  | .ok d =>
    ⟨{ s with historyPage := d.page.getD page,
              historyPageSize := d.pageSize.getD s.historyPageSize,
              historyTotal := d.total.getD 0,
              historyItems := d.items.getD [] }, [req], false⟩
  | .netError => ⟨s, [req], true⟩
  | .httpNotOk => ⟨s, [req], true⟩
  | .badJson => ⟨s, [req], true⟩

/-- Model of `saveConversationId(id)`: a persistence write happens only
for a truthy id whose string form is nonempty after trimming. -/
def saveEffs (id : Json) : List Eff :=
  if truthy id && !(jsTrim (jsStringOf id).data).isEmpty then [Eff.persistSave id] else []

/-- How a frame leaves the read loop: continue with the next frame, or
terminate the stream. -/
inductive StreamEnd where
  | doneEnd
  | errorEnd (msg : String)
  | exhausted

/-- Per-frame dispatch result. -/
inductive StepRes where
  | next
  | ended (e : StreamEnd)

/-- Dispatch output for one frame: updated state, effects, loop result. -/
structure ProcOut where
  state : AppState
  effs : List Eff
  step : StepRes

/-- The refresh block shared by the meta/stats/done branches:
`await loadUsagePage(usagePage)` then `await loadHistoryPage(historyPage)`,
each wrapped in a `try`/`catch` that keeps the state on failure. -/
def refreshBoth (env : Env) (s : AppState) : AppState × List Eff :=
  let u := loadUsagePage env s s.usagePage
  let h := loadHistoryPage env u.state u.state.historyPage
  (h.state, u.effs ++ h.effs)

/-- The `meta` branch with a truthy `conversation_id`: store the identity,
notify persistence, reset the usage page to 1, and refresh both
collections when the stats view is visible. -/
def metaStep (env : Env) (s : AppState) (cid : Json) : ProcOut :=
  let s1 := { s with conversationId := some cid, usagePage := 1 }
  let sv := saveEffs cid
  if s1.statsVisible then
    let r := refreshBoth env s1
    ⟨r.1, sv ++ r.2, .next⟩
  else ⟨s1, sv, .next⟩

/-- The `stats` branch (truthy payload): refresh both collections at their
current pages, only when the stats view is visible. -/
def statsStep (env : Env) (s : AppState) : ProcOut :=
  if s.statsVisible then
    let r := refreshBoth env s
    ⟨r.1, r.2, .next⟩
  else ⟨s, [], .next⟩

/-- The `error` branch message: `data?.message || 'stream error'`,
coerced to a string by the `Error` constructor. -/
def errMsg (payload : Json) : String :=
  match getField payload "message" with
  | some v => if truthy v then jsStringOf v else "stream error"
  | none => "stream error"

/-- The `done` branch: adopt a truthy `conversation_id` when present (with
no persistence notification), refresh both collections when the stats view
is visible, then return from the stream loop. -/
def doneStep (env : Env) (s : AppState) (payload : Json) : ProcOut :=
  let s1 := match truthyField payload "conversation_id" with
            | some cid => { s with conversationId := some cid }
            | none => s
  if s1.statsVisible then
    let r := refreshBoth env s1
    ⟨r.1, r.2, .ended .doneEnd⟩
  else ⟨s1, [], .ended .doneEnd⟩

/-- Dispatch one decoded frame through the `else if` chain of the stream
read loop. -/
def processFrame (env : Env) (s : AppState) (f : Frame) : ProcOut :=
  if f.name = "meta" ∧ (truthyField f.payload "conversation_id").isSome = true then
    metaStep env s ((truthyField f.payload "conversation_id").getD Json.null)
  else if f.name = "delta" ∧ (strField f.payload "delta").isSome = true then
    ⟨s, [Eff.deltaOut ((strField f.payload "delta").getD "")], .next⟩
  else if f.name = "stats" ∧ truthy f.payload = true then
    statsStep env s
  else if f.name = "error" then
    ⟨s, [], .ended (.errorEnd (errMsg f.payload))⟩
  else if f.name = "done" then
    doneStep env s f.payload
  else ⟨s, [], .next⟩

/-- Outcome of processing a whole stream of frames. -/
structure StreamOut where
  state : AppState
  effs : List Eff
  ended : StreamEnd

/-- Process decoded frames in arrival order until a terminal frame or
source exhaustion; frames after a terminal frame are never processed. -/
def processFrames (env : Env) (s : AppState) : List Frame → StreamOut
  | [] => ⟨s, [], .exhausted⟩
  | f :: rest =>
    let p := processFrame env s f
    match p.step with
    | .next =>
      let q := processFrames env p.state rest
      ⟨q.state, p.effs ++ q.effs, q.ended⟩
    | .ended e => ⟨p.state, p.effs, e⟩

/-- The stream HTTP response as seen by the client: status flag, whether
the content type is `text/event-stream` with a readable body, and the raw
body chunks. -/
structure StreamResp where
  ok : Bool
  eventStream : Bool
  chunks : List (List Nat)

/-- How `runAgentStream` finishes: a normal return, a thrown transport
error, or a thrown mid-stream `error` frame. -/
inductive RunResult where
  | success
  | httpError
  | badContentType
  | streamError (msg : String)

/-- Result of one `runAgentStream` call. -/
structure RunOut where
  state : AppState
  effs : List Eff
  result : RunResult

/-- Mapping of the loop exit to the caller-visible result: the loop
falling off the end of an exhausted source returns normally, exactly like
a `done` frame. -/
def endToResult : StreamEnd → RunResult
  | .doneEnd => .success
  | .exhausted => .success
  | .errorEnd m => .streamError m

/-- Model of `runAgentStream(message, onDelta)`: POST the stream request
(with the conversation identity when truthy), fail fast on a non-2xx
status or a non-`text/event-stream` response, otherwise decode and
dispatch frames until termination or exhaustion. -/
def runAgentStream (env : Env) (s : AppState) (message : String)
    (resp : StreamResp) : RunOut :=
  let openEff := Eff.streamOpen message (convTruthy s)
  if resp.ok = false then ⟨s, [openEff], .httpError⟩
  else if resp.eventStream = false then ⟨s, [openEff], .badContentType⟩
  else
    let p := processFrames env s (framesOfChunks resp.chunks)
    ⟨p.state, openEff :: p.effs, endToResult p.ended⟩

/-- Model of the chat form submit handler: trim the input; empty text is a
silent no-op, otherwise delegate to `runAgentStream`. -/
def submitForm (env : Env) (s : AppState) (inputValue : String)
    (resp : StreamResp) : AppState × List Eff × Option RunResult :=
  let text := (jsTrim inputValue.data).asString
  if text = "" then (s, [], none)
  else
    let r := runAgentStream env s text resp
    (r.state, r.effs, some r.result)

/-- The accumulated assistant response text: the fold of the `onDelta`
callback over the effect trace (`acc += delta`). -/
def accumOf (effs : List Eff) : String :=
  effs.foldl (fun acc e => match e with | .deltaOut t => acc ++ t | _ => acc) ""

/-- Integer ceiling division `Math.ceil(n / d)` for integral `n` and
positive integral `d` (the division is exact-rational here, so the ceiling
is the integer ceiling). -/
def jsCeilDiv (n d : Int) : Int := (n + d - 1) / d

/-- `totalPages` as computed by `renderStats` and the next-page handler:
`usageTotal ? Math.max(1, Math.ceil(usageTotal / usagePageSize)) : 1`. -/
def usagePageCount (s : AppState) : Int :=
  if s.usageTotal ≠ 0 then max 1 (jsCeilDiv s.usageTotal s.usagePageSize) else 1

/-- `totalPages` for the history collection. -/
def historyPageCount (s : AppState) : Int :=
  if s.historyTotal ≠ 0 then max 1 (jsCeilDiv s.historyTotal s.historyPageSize) else 1

/-- Click handler state/effects result. -/
structure ClickOut where
  state : AppState
  effs : List Eff

/-- The `statsPrev` click handler: early return when `usagePage <= 1`,
otherwise load the previous page, ignoring a thrown fetch failure. -/
def statsPrevClick (env : Env) (s : AppState) : ClickOut :=
  if s.usagePage ≤ 1 then ⟨s, []⟩
  else
    let r := loadUsagePage env s (s.usagePage - 1)
    ⟨r.state, r.effs⟩

/-- The `statsNext` click handler: early return when `usagePage >=
totalPages`, otherwise load the next page, ignoring failures. -/
def statsNextClick (env : Env) (s : AppState) : ClickOut :=
  if s.usagePage ≥ usagePageCount s then ⟨s, []⟩
  else
    let r := loadUsagePage env s (s.usagePage + 1)
    ⟨r.state, r.effs⟩

/-- The `historyPrev` click handler. -/
def historyPrevClick (env : Env) (s : AppState) : ClickOut :=
  if s.historyPage ≤ 1 then ⟨s, []⟩
  else
    let r := loadHistoryPage env s (s.historyPage - 1)
    ⟨r.state, r.effs⟩

/-- The `historyNext` click handler. -/
def historyNextClick (env : Env) (s : AppState) : ClickOut :=
  if s.historyPage ≥ historyPageCount s then ⟨s, []⟩
  else
    let r := loadHistoryPage env s (s.historyPage + 1)
    ⟨r.state, r.effs⟩

/-- Environment in which every page fetch fails at the network level. -/
def env0 : Env := ⟨fun _ _ => .netError, fun _ => .netError⟩

/-- Initial module state: no stored conversation identity, default page
sizes 20 (usage) and 10 (history), chat view active. -/
def s0 : AppState := ⟨none, 1, 20, 0, [], 1, 10, 0, [], false⟩

/-- A state mid-session: identity `"c1"`, usage page 2, history page 3,
stats view visible. -/
def sStats : AppState := ⟨some (Json.str "c1"), 2, 20, 100, [], 3, 10, 50, [], true⟩

/-- Wire bytes of a single `meta` frame establishing identity `"c1"`. -/
def metaC1Bytes : List Nat :=
  utf8Encode "event: meta\ndata: \x7b\"conversation_id\":\"c1\"\x7d\n\n".data

/-- A 2xx `text/event-stream` response whose source is exhausted after the
single `meta` frame, with no `done` or `error`. -/
def respMeta : StreamResp := ⟨true, true, [metaC1Bytes]⟩

/-- A 2xx response that is not `text/event-stream`. -/
def respBad : StreamResp := ⟨true, false, []⟩

/-- A decoded `done` frame carrying `conversation_id: "X"`. -/
def doneXFrame : Frame := ⟨"done", Json.obj [("conversation_id", Json.str "X")]⟩

/-- A decoded `meta` frame carrying `conversation_id: "X"`. -/
def metaXFrame : Frame := ⟨"meta", Json.obj [("conversation_id", Json.str "X")]⟩

/-- A decoded `stats` frame with the empty-object payload. -/
def statsFrame : Frame := ⟨"stats", Json.obj []⟩

/-- Outbound page-fetch requests (as opposed to callbacks and persistence
writes). -/
def isFetchEff : Eff → Bool
  | .fetchUsage _ _ _ => true
  | .fetchHistory _ _ => true
  | _ => false

/-- The page-fetch requests contained in an effect trace. -/
def fetchEffs (l : List Eff) : List Eff := l.filter isFetchEff

/-- Text of a one-frame stream whose only data character outside ASCII is
the two-byte `é` inside the delta payload. -/
def c5Text : List Char := "event: delta\ndata: \x7b\"delta\":\"héllo\"\x7d\n\n".data

/-- UTF-8 bytes of `c5Text`; the `é` occupies bytes 30 and 31. -/
def c5Bytes : List Nat := utf8Encode c5Text

/-- `c5Bytes` split into two chunks with the boundary between the two
bytes of the `é`. -/
def c5Chunks : List (List Nat) := [c5Bytes.take 31, c5Bytes.drop 31]

/-- The malformed frame-block of the spec's tolerance scenario (without
its terminating separator): `"event: delta\ndata: not-json"`. -/
def badBlock : List Char := "event: delta\ndata: not-json".data

/-- A well-formed delta frame-block. -/
def goodBlock : List Char := "event: delta\ndata: \x7b\"delta\":\"Hi\"\x7d".data

/-! Helper lemmas about the page-load operations. -/

theorem loadUsagePage_preserve (env : Env) (s : AppState) (page : Int) :
    (loadUsagePage env s page).state.conversationId = s.conversationId ∧
    (loadUsagePage env s page).state.historyPage = s.historyPage ∧
    (loadUsagePage env s page).state.historyPageSize = s.historyPageSize ∧
    (loadUsagePage env s page).state.historyTotal = s.historyTotal ∧
    (loadUsagePage env s page).state.historyItems = s.historyItems ∧
    (loadUsagePage env s page).state.statsVisible = s.statsVisible := by
  unfold loadUsagePage
  split
  · exact ⟨rfl, rfl, rfl, rfl, rfl, rfl⟩
  · split <;> exact ⟨rfl, rfl, rfl, rfl, rfl, rfl⟩

theorem loadHistoryPage_preserve (env : Env) (s : AppState) (page : Int) :
    (loadHistoryPage env s page).state.conversationId = s.conversationId ∧
    (loadHistoryPage env s page).state.usagePage = s.usagePage ∧
    (loadHistoryPage env s page).state.usagePageSize = s.usagePageSize ∧
    (loadHistoryPage env s page).state.usageTotal = s.usageTotal ∧
    (loadHistoryPage env s page).state.usageItems = s.usageItems ∧
    (loadHistoryPage env s page).state.statsVisible = s.statsVisible := by
  unfold loadHistoryPage
  split <;> exact ⟨rfl, rfl, rfl, rfl, rfl, rfl⟩

theorem loadUsagePage_effs_conv (env : Env) (s : AppState) (page : Int) (cid : Json)
    (h : convTruthy s = some cid) :
    (loadUsagePage env s page).effs = [Eff.fetchUsage cid page s.usagePageSize] := by
  simp only [loadUsagePage, h]
  cases env.usage cid page <;> rfl

theorem loadHistoryPage_effs (env : Env) (s : AppState) (page : Int) :
    (loadHistoryPage env s page).effs = [Eff.fetchHistory page s.historyPageSize] := by
  unfold loadHistoryPage
  cases env.history page <;> rfl

theorem loadUsagePage_effs_fetch (env : Env) (s : AppState) (page : Int) :
    ∀ e ∈ (loadUsagePage env s page).effs, isFetchEff e = true := by
  unfold loadUsagePage
  split
  · intro e he; simp at he
  · split <;> (intro e he; simp at he; subst he; rfl)

theorem loadHistoryPage_effs_fetch (env : Env) (s : AppState) (page : Int) :
    ∀ e ∈ (loadHistoryPage env s page).effs, isFetchEff e = true := by
  unfold loadHistoryPage
  split <;> (intro e he; simp at he; subst he; rfl)

theorem refreshBoth_conv (env : Env) (s : AppState) :
    (refreshBoth env s).1.conversationId = s.conversationId := by
  unfold refreshBoth
  rw [(loadHistoryPage_preserve _ _ _).1, (loadUsagePage_preserve _ _ _).1]

theorem refreshBoth_effs (env : Env) (s : AppState) (cid : Json)
    (h : convTruthy s = some cid) :
    (refreshBoth env s).2 =
      [Eff.fetchUsage cid s.usagePage s.usagePageSize,
       Eff.fetchHistory s.historyPage s.historyPageSize] := by
  simp only [refreshBoth]
  rw [loadUsagePage_effs_conv env s _ cid h, loadHistoryPage_effs,
      (loadUsagePage_preserve env s _).2.1, (loadUsagePage_preserve env s _).2.2.1]
  rfl

theorem refreshBoth_effs_fetch (env : Env) (s : AppState) :
    ∀ e ∈ (refreshBoth env s).2, isFetchEff e = true := by
  unfold refreshBoth
  intro e he
  rw [List.mem_append] at he
  rcases he with he | he
  · exact loadUsagePage_effs_fetch _ _ _ e he
  · exact loadHistoryPage_effs_fetch _ _ _ e he

theorem truthyField_truthy {j : Json} {k : String} {v : Json}
    (h : truthyField j k = some v) : truthy v = true := by
  rcases hg : getField j k with _ | w
  · simp only [truthyField, hg] at h
    exact Option.noConfusion h
  · simp only [truthyField, hg] at h
    by_cases ht : truthy w = true
    · rw [if_pos ht] at h; cases h; exact ht
    · rw [if_neg ht] at h; cases h

/-! Claim C7. -/

/-- C7: for every usage or history page fetch that fails (non-2xx status,
network failure, or unparseable response body), the collection state
`{page, page_size, total, items}` — indeed the whole module state — is
left completely unchanged; no partial overwrite occurs. -/
theorem c7_fetch_failure_preserves :
    (∀ (env : Env) (s : AppState) (page : Int) (cid : Json),
        s.conversationId = some cid → truthy cid = true →
        isFetchFail (env.usage cid page) = true →
        (loadUsagePage env s page).state = s) ∧
    (∀ (env : Env) (s : AppState) (page : Int),
        isFetchFail (env.history page) = true →
        (loadHistoryPage env s page).state = s) := by
  constructor
  · intro env s page cid hc ht hf
    have hct : convTruthy s = some cid := by simp [convTruthy, hc, ht]
    simp only [loadUsagePage, hct]
    cases ho : env.usage cid page
    · rfl
    · rfl
    · rfl
    · rw [ho] at hf
      simp [isFetchFail] at hf
  · intro env s page hf
    unfold loadHistoryPage
    cases ho : env.history page
    · rfl
    · rfl
    · rfl
    · rw [ho] at hf
      simp [isFetchFail] at hf

/-- C7 witness: in `env0` every fetch fails and both loads leave the
mid-session state `sStats` unchanged. -/
theorem c7_witness :
    sStats.conversationId = some (Json.str "c1") ∧
    isFetchFail (env0.usage (Json.str "c1") 2) = true ∧
    (loadUsagePage env0 sStats 2).state = sStats ∧
    isFetchFail (env0.history 3) = true ∧
    (loadHistoryPage env0 sStats 3).state = sStats :=
  ⟨rfl, rfl, c7_fetch_failure_preserves.1 env0 sStats 2 (Json.str "c1") rfl rfl rfl,
   rfl, c7_fetch_failure_preserves.2 env0 sStats 3 rfl⟩

/-! Claim C10. -/

/-- C10: a frame named `delta` whose parsed payload has no string-valued
`delta` field (missing, null, or another type) invokes no callback, leaves
the state and the response accumulator unchanged, and lets the stream
continue normally. -/
theorem c10_delta_nonstring (env : Env) (s : AppState) (payload : Json)
    (h : strField payload "delta" = none) :
    processFrame env s ⟨"delta", payload⟩ = ⟨s, [], StepRes.next⟩ ∧
    accumOf (processFrame env s ⟨"delta", payload⟩).effs = "" := by
  have hp : processFrame env s ⟨"delta", payload⟩ = ⟨s, [], StepRes.next⟩ := by
    simp [processFrame, h]
  exact ⟨hp, by rw [hp]; rfl⟩


/-- C10 witness: payload `{"delta": null}`. -/
theorem c10_witness :
    strField (Json.obj [("delta", Json.null)]) "delta" = none ∧
    processFrame env0 s0 ⟨"delta", Json.obj [("delta", Json.null)]⟩ = ⟨s0, [], StepRes.next⟩ ∧
    accumOf (processFrame env0 s0 ⟨"delta", Json.obj [("delta", Json.null)]⟩).effs = "" :=
  ⟨rfl, (c10_delta_nonstring env0 s0 (Json.obj [("delta", Json.null)]) rfl).1,
   (c10_delta_nonstring env0 s0 (Json.obj [("delta", Json.null)]) rfl).2⟩

/-! Claim C9. -/

/-- C9 counterexample: invoked directly with the empty message,
`runAgentStream` does not reject with a precondition failure — it opens
the stream request (here answered with a non-streaming response), so the
claimed precondition check does not exist in the code. -/
theorem c9_counterexample :
    (runAgentStream env0 s0 "" respBad).effs = [Eff.streamOpen "" none] ∧
    (runAgentStream env0 s0 "" respBad).result = RunResult.badContentType :=
  ⟨rfl, rfl⟩

/-- C9 (amended): the stream-send operation performs no emptiness
precondition check — invoked directly with any message (including one
empty after trimming) it opens the stream request first; at the UI form
boundary, input that is empty after trimming is a silent no-op issuing no
request. -/
theorem c9_empty_input :
    (∀ (env : Env) (s : AppState) (msg : String) (resp : StreamResp),
        ∃ rest, (runAgentStream env s msg resp).effs =
          Eff.streamOpen msg (convTruthy s) :: rest) ∧
    (∀ (env : Env) (s : AppState) (v : String) (resp : StreamResp),
        jsTrim v.data = [] → submitForm env s v resp = (s, [], none)) := by
  constructor
  · intro env s msg resp
    unfold runAgentStream
    by_cases h1 : resp.ok = false
    · rw [if_pos h1]; exact ⟨[], rfl⟩
    · rw [if_neg h1]
      by_cases h2 : resp.eventStream = false
      · rw [if_pos h2]; exact ⟨[], rfl⟩
      · rw [if_neg h2]; exact ⟨_, rfl⟩
  · intro env s v resp h
    have ha : (jsTrim v.data).asString = "" := by rw [h]; rfl
    simp [submitForm, ha]

/-- C9 witness: the empty message still opens the request; whitespace-only
form input is a no-op. -/
theorem c9_witness :
    (∃ rest, (runAgentStream env0 s0 "" respBad).effs =
        Eff.streamOpen "" (convTruthy s0) :: rest) ∧
    jsTrim "  ".data = [] ∧
    submitForm env0 s0 "  " respBad = (s0, [], none) :=
  ⟨c9_empty_input.1 env0 s0 "" respBad, rfl, c9_empty_input.2 env0 s0 "  " respBad rfl⟩

/-! Claim C8. -/

/-- C8: `page_count` is `max(1, ceil(total / page_size))` for positive
total and `1` otherwise; previous-page navigation is a no-op (no request,
state unchanged) whenever `page ≤ 1` and next-page navigation is a no-op
whenever `page ≥ page_count` — so navigating to page `0` or to
`page_count + 1` is impossible, for both collections. -/
theorem c8_pagination_boundaries :
    (∀ s : AppState, 0 < s.usagePageSize →
        usagePageCount s =
          if 0 < s.usageTotal then max 1 (jsCeilDiv s.usageTotal s.usagePageSize) else 1) ∧
    (∀ (env : Env) (s : AppState), s.usagePage ≤ 1 → statsPrevClick env s = ⟨s, []⟩) ∧
    (∀ (env : Env) (s : AppState), usagePageCount s ≤ s.usagePage →
        statsNextClick env s = ⟨s, []⟩) ∧
    (∀ (env : Env) (s : AppState), s.historyPage ≤ 1 → historyPrevClick env s = ⟨s, []⟩) ∧
    (∀ (env : Env) (s : AppState), historyPageCount s ≤ s.historyPage →
        historyNextClick env s = ⟨s, []⟩) := by
  refine ⟨?_, ?_, ?_, ?_, ?_⟩
  · intro s hps
    unfold usagePageCount
    rcases lt_trichotomy s.usageTotal 0 with hneg | hzero | hpos
    · rw [if_pos (by omega), if_neg (by omega)]
      have h1 : s.usageTotal + s.usagePageSize - 1 ≤ s.usagePageSize := by omega
      have h2 : jsCeilDiv s.usageTotal s.usagePageSize ≤ 1 := by
        unfold jsCeilDiv
        calc (s.usageTotal + s.usagePageSize - 1) / s.usagePageSize
            ≤ s.usagePageSize / s.usagePageSize := Int.ediv_le_ediv hps h1
          _ ≤ 1 := by rw [Int.ediv_self (by omega)]
      omega
    · rw [if_neg (by omega), if_neg (by omega)]
    · rw [if_pos (by omega), if_pos hpos]
  · intro env s h
    unfold statsPrevClick
    rw [if_pos h]
  · intro env s h
    unfold statsNextClick
    rw [if_pos h]
  · intro env s h
    unfold historyPrevClick
    rw [if_pos h]
  · intro env s h
    unfold historyNextClick
    rw [if_pos h]

/-- C8 witness: the formula at the mid-session state (`total = 100`,
`page_size = 20`), and all four boundary no-ops at the initial state
(page 1 of a single-page collection). -/
theorem c8_witness :
    usagePageCount sStats =
      (if 0 < sStats.usageTotal then max 1 (jsCeilDiv sStats.usageTotal sStats.usagePageSize) else 1) ∧
    statsPrevClick env0 s0 = ⟨s0, []⟩ ∧
    statsNextClick env0 s0 = ⟨s0, []⟩ ∧
    historyPrevClick env0 s0 = ⟨s0, []⟩ ∧
    historyNextClick env0 s0 = ⟨s0, []⟩ :=
  ⟨c8_pagination_boundaries.1 sStats (by decide),
   c8_pagination_boundaries.2.1 env0 s0 (by decide),
   c8_pagination_boundaries.2.2.1 env0 s0 (by decide),
   c8_pagination_boundaries.2.2.2.1 env0 s0 (by decide),
   c8_pagination_boundaries.2.2.2.2 env0 s0 (by decide)⟩

/-! Helper lemmas about conversation identity through dispatch. -/

theorem metaStep_conv (env : Env) (s : AppState) (cid : Json) :
    (metaStep env s cid).state.conversationId = some cid := by
  simp only [metaStep]
  split
  · exact (refreshBoth_conv _ _).trans rfl
  · rfl

theorem statsStep_conv (env : Env) (s : AppState) :
    (statsStep env s).state.conversationId = s.conversationId := by
  simp only [statsStep]
  split
  · exact refreshBoth_conv _ _
  · rfl

theorem doneStep_conv_some (env : Env) (s : AppState) (payload : Json) (cid : Json)
    (h : truthyField payload "conversation_id" = some cid) :
    (doneStep env s payload).state.conversationId = some cid := by
  simp only [doneStep, h]
  split
  · exact (refreshBoth_conv _ _).trans rfl
  · rfl

theorem doneStep_conv_none (env : Env) (s : AppState) (payload : Json)
    (h : truthyField payload "conversation_id" = none) :
    (doneStep env s payload).state.conversationId = s.conversationId := by
  simp only [doneStep, h]
  split
  · exact refreshBoth_conv _ _
  · rfl

theorem processFrame_conv (env : Env) (s : AppState) (f : Frame) :
    (processFrame env s f).state.conversationId = s.conversationId ∨
    ∃ v, truthyField f.payload "conversation_id" = some v ∧
         (processFrame env s f).state.conversationId = some v := by
  unfold processFrame
  split_ifs with h1 h2 h3 h4 h5
  · rcases ho : truthyField f.payload "conversation_id" with _ | v
    · rw [ho] at h1; simp at h1
    · right
      exact ⟨v, rfl, metaStep_conv env s v⟩
  · left; rfl
  · left; exact statsStep_conv env s
  · left; rfl
  · rcases ho : truthyField f.payload "conversation_id" with _ | v
    · left; exact doneStep_conv_none env s f.payload ho
    · right; exact ⟨v, rfl, doneStep_conv_some env s f.payload v ho⟩
  · left; rfl

theorem processFrame_conv_isSome (env : Env) (s : AppState) (f : Frame)
    (h : s.conversationId.isSome = true) :
    (processFrame env s f).state.conversationId.isSome = true := by
  rcases processFrame_conv env s f with hc | ⟨v, _, hc⟩
  · rw [hc]; exact h
  · rw [hc]; rfl

/-! Claim C4. -/

/-- C4: conversation identity is monotonic within a stream — once it is
present it can never revert to absent through any sequence of frames; and
any single frame whose payload lacks a present-and-truthy
`conversation_id` leaves the stored identity unchanged. -/
theorem c4_identity_monotonic :
    (∀ (env : Env) (s : AppState) (fs : List Frame),
        s.conversationId.isSome = true →
        (processFrames env s fs).state.conversationId.isSome = true) ∧
    (∀ (env : Env) (s : AppState) (f : Frame),
        truthyField f.payload "conversation_id" = none →
        (processFrame env s f).state.conversationId = s.conversationId) := by
  constructor
  · intro env s fs
    induction fs generalizing s with
    | nil => intro h; exact h
    | cons f rest ih =>
      intro h
      simp only [processFrames]
      split
      · exact ih _ (processFrame_conv_isSome env s f h)
      · exact processFrame_conv_isSome env s f h
  · intro env s f h
    unfold processFrame
    split_ifs with h1 h2 h3 h4 h5
    · rw [h] at h1; simp at h1
    · rfl
    · exact statsStep_conv env s
    · rfl
    · exact doneStep_conv_none env s f.payload h
    · rfl

/-- C4 witness: a stream with identity already present keeps it present;
a `stats` frame (payload without `conversation_id`) leaves it unchanged. -/
theorem c4_witness :
    sStats.conversationId.isSome = true ∧
    (processFrames env0 sStats [doneXFrame]).state.conversationId.isSome = true ∧
    truthyField statsFrame.payload "conversation_id" = none ∧
    (processFrame env0 s0 statsFrame).state.conversationId = s0.conversationId :=
  ⟨rfl, c4_identity_monotonic.1 env0 sStats [doneXFrame] rfl,
   rfl, c4_identity_monotonic.2 env0 s0 statsFrame rfl⟩

/-! Helper lemmas identifying the dispatch branch taken by each event name. -/

theorem processFrame_meta (env : Env) (s : AppState) (payload : Json) (cid : Json)
    (h : truthyField payload "conversation_id" = some cid) :
    processFrame env s ⟨"meta", payload⟩ = metaStep env s cid := by
  simp [processFrame, h]

theorem processFrame_stats (env : Env) (s : AppState) (payload : Json)
    (h : truthy payload = true) :
    processFrame env s ⟨"stats", payload⟩ = statsStep env s := by
  simp [processFrame, h]

theorem processFrame_done (env : Env) (s : AppState) (payload : Json) :
    processFrame env s ⟨"done", payload⟩ = doneStep env s payload := by
  simp [processFrame]

theorem fetchEffs_append (a b : List Eff) :
    fetchEffs (a ++ b) = fetchEffs a ++ fetchEffs b := by
  simp [fetchEffs, List.filter_append]

theorem fetchEffs_saveEffs (cid : Json) : fetchEffs (saveEffs cid) = [] := by
  unfold saveEffs
  split <;> rfl

theorem convTruthy_update (s : AppState) (cid : Json) (ht : truthy cid = true) :
    ∀ up ups ut ui hp hps htot hi vis,
      convTruthy ⟨some cid, up, ups, ut, ui, hp, hps, htot, hi, vis⟩ = some cid := by
  intro up ups ut ui hp hps htot hi vis
  simp [convTruthy, ht]

theorem doneStep_step (env : Env) (s : AppState) (payload : Json) :
    (doneStep env s payload).step = StepRes.ended StreamEnd.doneEnd := by
  simp only [doneStep]
  split <;> rfl

theorem doneStep_effs_fetch (env : Env) (s : AppState) (payload : Json) :
    ∀ e ∈ (doneStep env s payload).effs, isFetchEff e = true := by
  simp only [doneStep]
  split <;>
    first
    | exact refreshBoth_effs_fetch _ _
    | (intro e he; simp at he)

/-! Claim C2. -/

/-- C2 counterexample: a `Stats` event dispatched in a mid-session state
with the usage view visible, usage page 2 and history page 3 issues its
two fetches at pages 2 and 3 — not at page 1 as the claim requires. -/
theorem c2_counterexample :
    sStats.statsVisible = true ∧
    (processFrame env0 sStats statsFrame).effs =
      [Eff.fetchUsage (Json.str "c1") 2 20, Eff.fetchHistory 3 10] :=
  ⟨rfl, rfl⟩

/-- C2 (amended): with the view visible, a refresh-triggering event issues
exactly two page fetches — usage then history — but at the collections'
current pages, not page 1: a `Meta` resets the usage page to 1 first (so
its usage fetch is at page 1) while `Done` and `Stats` fetch the current
usage page, and all three fetch the current history page; the usage fetch
requires a (new or current) truthy conversation identity.  A `Stats` event
with the view not visible issues no fetch at all. -/
theorem c2_refresh_fetches :
    (∀ (env : Env) (s : AppState) (payload : Json) (cid : Json),
        truthyField payload "conversation_id" = some cid → s.statsVisible = true →
        fetchEffs (processFrame env s ⟨"meta", payload⟩).effs =
          [Eff.fetchUsage cid 1 s.usagePageSize,
           Eff.fetchHistory s.historyPage s.historyPageSize]) ∧
    (∀ (env : Env) (s : AppState) (payload : Json) (cid : Json),
        truthyField payload "conversation_id" = some cid → s.statsVisible = true →
        (processFrame env s ⟨"done", payload⟩).effs =
          [Eff.fetchUsage cid s.usagePage s.usagePageSize,
           Eff.fetchHistory s.historyPage s.historyPageSize]) ∧
    (∀ (env : Env) (s : AppState) (payload : Json) (cid : Json),
        truthy payload = true → s.statsVisible = true →
        convTruthy s = some cid →
        (processFrame env s ⟨"stats", payload⟩).effs =
          [Eff.fetchUsage cid s.usagePage s.usagePageSize,
           Eff.fetchHistory s.historyPage s.historyPageSize]) ∧
    (∀ (env : Env) (s : AppState) (payload : Json),
        s.statsVisible = false →
        (processFrame env s ⟨"stats", payload⟩).effs = []) := by
  refine ⟨?_, ?_, ?_, ?_⟩
  · intro env s payload cid h hv
    have ht : truthy cid = true := truthyField_truthy h
    rw [processFrame_meta env s payload cid h]
    simp only [metaStep]
    rw [if_pos (by exact hv)]
    rw [fetchEffs_append, fetchEffs_saveEffs]
    rw [refreshBoth_effs _ _ cid (by simp [convTruthy, ht])]
    rfl
  · intro env s payload cid h hv
    have ht : truthy cid = true := truthyField_truthy h
    rw [processFrame_done env s payload]
    simp only [doneStep, h]
    rw [if_pos (by exact hv)]
    rw [refreshBoth_effs _ _ cid (by simp [convTruthy, ht])]
  · intro env s payload cid hp hv hc
    rw [processFrame_stats env s payload hp]
    simp only [statsStep]
    rw [if_pos (by exact hv)]
    exact refreshBoth_effs _ _ cid hc
  · intro env s payload hv
    by_cases hp : truthy payload = true
    · rw [processFrame_stats env s payload hp]
      simp only [statsStep]
      rw [if_neg (by rw [hv]; exact Bool.false_ne_true)]
    · simp [processFrame, hp]

/-- C2 witness: the four cases at concrete states — `Meta` fetches usage
page 1, `Done` and `Stats` fetch the current pages 2 and 3, and an
invisible `Stats` fetches nothing. -/
theorem c2_witness :
    fetchEffs (processFrame env0 sStats metaXFrame).effs =
      [Eff.fetchUsage (Json.str "X") 1 20, Eff.fetchHistory 3 10] ∧
    (processFrame env0 sStats doneXFrame).effs =
      [Eff.fetchUsage (Json.str "X") 2 20, Eff.fetchHistory 3 10] ∧
    (processFrame env0 sStats statsFrame).effs =
      [Eff.fetchUsage (Json.str "c1") 2 20, Eff.fetchHistory 3 10] ∧
    (processFrame env0 s0 statsFrame).effs = [] :=
  ⟨c2_refresh_fetches.1 env0 sStats doneXFrame.payload (Json.str "X") rfl rfl,
   c2_refresh_fetches.2.1 env0 sStats doneXFrame.payload (Json.str "X") rfl rfl,
   c2_refresh_fetches.2.2.1 env0 sStats statsFrame.payload (Json.str "c1") rfl rfl rfl,
   c2_refresh_fetches.2.2.2 env0 s0 statsFrame.payload rfl⟩

/-! Claim C3. -/

/-- C3 counterexample: a `Done` frame carrying `conversation_id: "X"` sets
the Conversation State but — unlike a `Meta`, which notifies the
persistence hook — emits no effect at all: the persistence hook is not
notified, so the `Done` is not a full `Meta`-equivalent. -/
theorem c3_counterexample :
    (processFrames env0 s0 [doneXFrame]).state.conversationId = some (Json.str "X") ∧
    (processFrames env0 s0 [doneXFrame]).effs = [] ∧
    (processFrame env0 s0 metaXFrame).effs = [Eff.persistSave (Json.str "X")] :=
  ⟨rfl, rfl, rfl⟩

/-- C3 (amended): a stream delivering `Done{conversation_id: "X"}` treats
it as terminal — Conversation State afterwards reports `"X"`, the stream
ends with success (`onDone` fires exactly once), and frames after the
`Done` are never processed — but the persistence hook is NOT notified (the
`done` branch, unlike `meta`, never calls `saveConversationId`). -/
theorem c3_done_final (env : Env) (s : AppState) (payload : Json) (cid : Json)
    (rest : List Frame)
    (h : truthyField payload "conversation_id" = some cid) :
    processFrames env s (⟨"done", payload⟩ :: rest) =
      ⟨(doneStep env s payload).state, (doneStep env s payload).effs,
       StreamEnd.doneEnd⟩ ∧
    (processFrames env s (⟨"done", payload⟩ :: rest)).state.conversationId = some cid ∧
    (∀ e ∈ (processFrames env s (⟨"done", payload⟩ :: rest)).effs,
        ∀ v, e ≠ Eff.persistSave v) := by
  have hfix : processFrames env s (⟨"done", payload⟩ :: rest) =
      ⟨(doneStep env s payload).state, (doneStep env s payload).effs,
       StreamEnd.doneEnd⟩ := by
    simp only [processFrames, processFrame_done, doneStep_step]
  refine ⟨hfix, ?_, ?_⟩
  · rw [hfix]
    exact doneStep_conv_some env s payload cid h
  · rw [hfix]
    intro e he v
    have hf := doneStep_effs_fetch env s payload e he
    cases e <;> simp_all [isFetchEff]

/-- C3 witness: the concrete `Done{conversation_id: "X"}` stream followed
by a further (ignored) frame. -/
theorem c3_witness :
    processFrames env0 s0 (doneXFrame :: [statsFrame]) =
      ⟨(doneStep env0 s0 doneXFrame.payload).state,
       (doneStep env0 s0 doneXFrame.payload).effs, StreamEnd.doneEnd⟩ ∧
    (processFrames env0 s0 (doneXFrame :: [statsFrame])).state.conversationId =
      some (Json.str "X") ∧
    (∀ e ∈ (processFrames env0 s0 (doneXFrame :: [statsFrame])).effs,
        ∀ v, e ≠ Eff.persistSave v) :=
  c3_done_final env0 s0 doneXFrame.payload (Json.str "X") [statsFrame] rfl

/-! Claim C1. -/

set_option maxHeartbeats 1000000 in
/-- C1 counterexample: a stream whose source is exhausted after a single
`Meta` frame (no `Done`, no `Error`) makes `runAgentStream` return
success — no protocol-violation failure is synthesized — while the
identity established by the `Meta` is retained. -/
theorem c1_counterexample :
    (runAgentStream env0 s0 "hi" respMeta).result = RunResult.success ∧
    (runAgentStream env0 s0 "hi" respMeta).state.conversationId =
      some (Json.str "c1") := by
  constructor
  · rfl
  · rfl

/-- C1 (amended): when the byte source of a well-formed streaming response
is exhausted without ever delivering `Done` or `Error`, `runAgentStream`
returns success to its caller (the loop simply falls off the end; no
failure is synthesized), and the conversation identity resulting from the
processed frames — e.g. one established by an earlier `Meta` — is
retained, not rolled back. -/
theorem c1_amended (env : Env) (s : AppState) (msg : String) (resp : StreamResp)
    (hok : resp.ok = true) (hes : resp.eventStream = true)
    (hex : (processFrames env s (framesOfChunks resp.chunks)).ended =
      StreamEnd.exhausted) :
    (runAgentStream env s msg resp).result = RunResult.success ∧
    (runAgentStream env s msg resp).state.conversationId =
      (processFrames env s (framesOfChunks resp.chunks)).state.conversationId := by
  have h1 : ¬(resp.ok = false) := by rw [hok]; simp
  have h2 : ¬(resp.eventStream = false) := by rw [hes]; simp
  constructor
  · simp only [runAgentStream, if_neg h1, if_neg h2]
    simp [hex, endToResult]
  · simp only [runAgentStream, if_neg h1, if_neg h2]

set_option maxHeartbeats 1000000 in
/-- C1 witness: the concrete exhausted-after-`Meta` stream. -/
theorem c1_witness :
    (runAgentStream env0 s0 "hi" respMeta).result = RunResult.success ∧
    (runAgentStream env0 s0 "hi" respMeta).state.conversationId =
      (processFrames env0 s0 (framesOfChunks respMeta.chunks)).state.conversationId :=
  c1_amended env0 s0 "hi" respMeta rfl rfl (by rfl)

/-! Helper lemmas for claim C6. -/

theorem procLine_name (acc : String × String) (l : List Char)
    (h : l.take 6 ≠ "event:".data) : (procLine acc l).1 = acc.1 := by
  simp [procLine, h]

theorem foldl_procLine_name (lines : List (List Char)) (acc : String × String)
    (h : lines.all (fun l => l.take 6 ≠ "event:".data) = true) :
    (lines.foldl procLine acc).1 = acc.1 := by
  induction lines generalizing acc with
  | nil => rfl
  | cons l rest ih =>
    simp only [List.all_cons, Bool.and_eq_true, decide_eq_true_eq] at h
    rw [List.foldl_cons, ih _ (by simpa using h.2)]
    exact procLine_name acc l h.1

/-! Claim C6. -/

/-- C6: a frame-block yielding no data text, or whose concatenated data
text fails to parse as JSON, yields no frame at all — it is never
dispatched, the stream is not aborted, and the remaining frame-blocks
decode and dispatch exactly as they would without it; a frame-block with
no `event:` line gets the default event name `"message"`. -/
theorem c6_malformed_frames :
    (∀ block : List Char,
        (parseBlock block).2 = "" ∨ jsonParse (parseBlock block).2 = none →
        frameOfBlock block = none) ∧
    (∀ (env : Env) (s : AppState) (block : List Char) (blocks : List (List Char)),
        frameOfBlock block = none →
        (block :: blocks).filterMap frameOfBlock = blocks.filterMap frameOfBlock ∧
        processFrames env s ((block :: blocks).filterMap frameOfBlock) =
          processFrames env s (blocks.filterMap frameOfBlock)) ∧
    (∀ block : List Char,
        (splitLines block).all (fun l => l.take 6 ≠ "event:".data) = true →
        (parseBlock block).1 = "message") := by
  refine ⟨?_, ?_, ?_⟩
  · intro block h
    unfold frameOfBlock
    rcases h with h | h
    · simp [h]
    · by_cases he : (parseBlock block).2 = ""
      · simp [he]
      · simp [he, h]
  · intro env s block blocks h
    have hl : (block :: blocks).filterMap frameOfBlock = blocks.filterMap frameOfBlock := by
      simp [List.filterMap_cons, h]
    exact ⟨hl, by rw [hl]⟩
  · intro block h
    exact foldl_procLine_name (splitLines block) ("message", "") h

/-- C6 witness: the spec's scenario block `"event: delta\ndata: not-json"`
is dropped while the following well-formed block still dispatches, and a
block with only a `data:` line gets event name `"message"`. -/
theorem c6_witness :
    jsonParse (parseBlock badBlock).2 = none ∧
    frameOfBlock badBlock = none ∧
    (badBlock :: [goodBlock]).filterMap frameOfBlock =
      [goodBlock].filterMap frameOfBlock ∧
    processFrames env0 s0 ((badBlock :: [goodBlock]).filterMap frameOfBlock) =
      processFrames env0 s0 ([goodBlock].filterMap frameOfBlock) ∧
    (splitLines "data: {}".data).all (fun l => l.take 6 ≠ "event:".data) = true ∧
    (parseBlock "data: {}".data).1 = "message" :=
  ⟨rfl,
   c6_malformed_frames.1 badBlock (Or.inr rfl),
   (c6_malformed_frames.2.1 env0 s0 badBlock [goodBlock] rfl).1,
   (c6_malformed_frames.2.1 env0 s0 badBlock [goodBlock] rfl).2,
   rfl,
   c6_malformed_frames.2.2 "data: {}".data rfl⟩

/-! Helper lemmas for claim C5: the incremental UTF-8 decoder. -/

theorem utf8Len_pos (b : Nat) : 1 ≤ utf8Len b := by
  unfold utf8Len
  split_ifs <;> omega

theorem utf8DecodeOne_done {bs : List Nat} (h : utf8DecodeOne bs = .done) :
    bs = [] := by
  cases bs with
  | nil => rfl
  | cons b rest =>
    simp only [utf8DecodeOne] at h
    split_ifs at h
    split at h <;> cases h

theorem utf8DecodeOne_oneChar_append {bs : List Nat} {c : Char} {r : List Nat}
    (h : utf8DecodeOne bs = .oneChar c r) (m : List Nat) :
    utf8DecodeOne (bs ++ m) = .oneChar c (r ++ m) := by
  cases bs with
  | nil => cases h
  | cons b rest =>
    simp only [utf8DecodeOne] at h
    by_cases hlt : rest.length + 1 < utf8Len b
    · rw [if_pos hlt] at h; cases h
    · rw [if_neg hlt] at h
      have hle : utf8Len b - 1 ≤ rest.length := by
        have := utf8Len_pos b; omega
      rcases hd : decodeCore b (rest.take (utf8Len b - 1)) with _ | c'
      · rw [hd] at h; cases h
      · rw [hd] at h
        injection h with h1 h2
        subst h1 h2
        simp only [List.cons_append, utf8DecodeOne]
        rw [if_neg (by rw [List.length_append]; omega)]
        rw [List.take_append_of_le_length hle, hd,
            List.drop_append_of_le_length hle]

theorem utf8DecodeOne_bad_append {bs : List Nat} {r : List Nat}
    (h : utf8DecodeOne bs = .bad r) (m : List Nat) :
    utf8DecodeOne (bs ++ m) = .bad (r ++ m) := by
  cases bs with
  | nil => cases h
  | cons b rest =>
    simp only [utf8DecodeOne] at h
    by_cases hlt : rest.length + 1 < utf8Len b
    · rw [if_pos hlt] at h; cases h
    · rw [if_neg hlt] at h
      have hle : utf8Len b - 1 ≤ rest.length := by
        have := utf8Len_pos b; omega
      rcases hd : decodeCore b (rest.take (utf8Len b - 1)) with _ | c'
      · rw [hd] at h
        injection h with h1
        subst h1
        simp only [List.cons_append, utf8DecodeOne]
        rw [if_neg (by rw [List.length_append]; omega)]
        rw [List.take_append_of_le_length hle, hd]
      · rw [hd] at h; cases h

theorem utf8DecodeOne_oneChar_length {bs : List Nat} {c : Char} {r : List Nat}
    (h : utf8DecodeOne bs = .oneChar c r) : r.length < bs.length := by
  cases bs with
  | nil => cases h
  | cons b rest =>
    simp only [utf8DecodeOne] at h
    split_ifs at h
    split at h <;> cases h
    have := List.length_drop (utf8Len b - 1) rest
    simp only [List.length_cons]
    omega

theorem utf8DecodeOne_bad_length {bs : List Nat} {r : List Nat}
    (h : utf8DecodeOne bs = .bad r) : r.length < bs.length := by
  cases bs with
  | nil => cases h
  | cons b rest =>
    simp only [utf8DecodeOne] at h
    split_ifs at h
    split at h <;> cases h
    simp only [List.length_cons]
    omega

theorem utf8DecodeGreedyF_congr :
    ∀ (f g : Nat) (bs : List Nat), bs.length < f → bs.length < g →
      utf8DecodeGreedyF f bs = utf8DecodeGreedyF g bs := by
  intro f
  induction f with
  | zero => intro g bs hf; omega
  | succ f ih =>
    intro g bs hf hg
    cases g with
    | zero => omega
    | succ g =>
      simp only [utf8DecodeGreedyF]
      cases hs : utf8DecodeOne bs with
      | done => rfl
      | needMore => rfl
      | oneChar c rest =>
        have := utf8DecodeOne_oneChar_length hs
        dsimp only
        rw [ih g rest (by omega) (by omega)]
      | bad rest =>
        have := utf8DecodeOne_bad_length hs
        dsimp only
        rw [ih g rest (by omega) (by omega)]

theorem utf8DecodeGreedy_done {bs : List Nat} (h : utf8DecodeOne bs = .done) :
    utf8DecodeGreedy bs = ([], []) := by
  unfold utf8DecodeGreedy
  simp only [utf8DecodeGreedyF, h]

theorem utf8DecodeGreedy_needMore {bs : List Nat}
    (h : utf8DecodeOne bs = .needMore) : utf8DecodeGreedy bs = ([], bs) := by
  unfold utf8DecodeGreedy
  simp only [utf8DecodeGreedyF, h]

theorem utf8DecodeGreedy_oneChar {bs : List Nat} {c : Char} {rest : List Nat}
    (h : utf8DecodeOne bs = .oneChar c rest) :
    utf8DecodeGreedy bs =
      (c :: (utf8DecodeGreedy rest).1, (utf8DecodeGreedy rest).2) := by
  unfold utf8DecodeGreedy
  simp only [utf8DecodeGreedyF, h]
  have := utf8DecodeOne_oneChar_length h
  rw [utf8DecodeGreedyF_congr bs.length (rest.length + 1) rest (by omega) (by omega)]
  rfl

theorem utf8DecodeGreedy_bad {bs : List Nat} {rest : List Nat}
    (h : utf8DecodeOne bs = .bad rest) :
    utf8DecodeGreedy bs =
      (Char.ofNat 0xFFFD :: (utf8DecodeGreedy rest).1, (utf8DecodeGreedy rest).2) := by
  unfold utf8DecodeGreedy
  simp only [utf8DecodeGreedyF, h]
  have := utf8DecodeOne_bad_length h
  rw [utf8DecodeGreedyF_congr bs.length (rest.length + 1) rest (by omega) (by omega)]
  rfl

theorem utf8DecodeGreedy_snd_stall_aux :
    ∀ (n : Nat) (bs : List Nat), bs.length ≤ n →
      utf8DecodeGreedy (utf8DecodeGreedy bs).2 = ([], (utf8DecodeGreedy bs).2) := by
  intro n
  induction n with
  | zero =>
    intro bs hb
    have hnil : bs = [] := List.eq_nil_of_length_eq_zero (by omega)
    subst hnil
    exact utf8DecodeGreedy_done rfl
  | succ n ih =>
    intro bs hb
    cases hs : utf8DecodeOne bs with
    | done =>
      rw [utf8DecodeGreedy_done hs]
      exact utf8DecodeGreedy_done rfl
    | needMore =>
      rw [utf8DecodeGreedy_needMore hs]
      exact utf8DecodeGreedy_needMore hs
    | oneChar c rest =>
      rw [utf8DecodeGreedy_oneChar hs]
      exact ih rest (by have := utf8DecodeOne_oneChar_length hs; omega)
    | bad rest =>
      rw [utf8DecodeGreedy_bad hs]
      exact ih rest (by have := utf8DecodeOne_bad_length hs; omega)

theorem utf8DecodeGreedy_snd_stall (bs : List Nat) :
    utf8DecodeGreedy (utf8DecodeGreedy bs).2 = ([], (utf8DecodeGreedy bs).2) :=
  utf8DecodeGreedy_snd_stall_aux bs.length bs (le_refl _)

theorem utf8DecodeGreedy_append_aux :
    ∀ (n : Nat) (bs m : List Nat), bs.length ≤ n →
      utf8DecodeGreedy (bs ++ m) =
        ((utf8DecodeGreedy bs).1 ++
          (utf8DecodeGreedy ((utf8DecodeGreedy bs).2 ++ m)).1,
         (utf8DecodeGreedy ((utf8DecodeGreedy bs).2 ++ m)).2) := by
  intro n
  induction n with
  | zero =>
    intro bs m hb
    have hnil : bs = [] := List.eq_nil_of_length_eq_zero (by omega)
    subst hnil
    have h0 : utf8DecodeGreedy ([] : List Nat) = ([], []) :=
      @utf8DecodeGreedy_done [] rfl
    rw [h0]
    simp
  | succ n ih =>
    intro bs m hb
    cases hs : utf8DecodeOne bs with
    | done =>
      rw [utf8DecodeGreedy_done hs, utf8DecodeOne_done hs]
      simp
    | needMore =>
      rw [utf8DecodeGreedy_needMore hs]
      simp
    | oneChar c rest =>
      rw [utf8DecodeGreedy_oneChar hs,
          utf8DecodeGreedy_oneChar (utf8DecodeOne_oneChar_append hs m),
          ih rest m (by have := utf8DecodeOne_oneChar_length hs; omega)]
      rfl
    | bad rest =>
      rw [utf8DecodeGreedy_bad hs,
          utf8DecodeGreedy_bad (utf8DecodeOne_bad_append hs m),
          ih rest m (by have := utf8DecodeOne_bad_length hs; omega)]
      rfl

theorem utf8DecodeGreedy_append (bs m : List Nat) :
    utf8DecodeGreedy (bs ++ m) =
      ((utf8DecodeGreedy bs).1 ++
        (utf8DecodeGreedy ((utf8DecodeGreedy bs).2 ++ m)).1,
       (utf8DecodeGreedy ((utf8DecodeGreedy bs).2 ++ m)).2) :=
  utf8DecodeGreedy_append_aux bs.length bs m (le_refl _)

/-! Helper lemmas for claim C5: frame-block extraction. -/

theorem splitFirstSep_some_append {a : List Char} {x y : List Char}
    (h : splitFirstSep a = some (x, y)) (m : List Char) :
    splitFirstSep (a ++ m) = some (x, y ++ m) := by
  induction a generalizing x y with
  | nil => cases h
  | cons c1 rest ih =>
    cases rest with
    | nil => cases h
    | cons c2 rest2 =>
      simp only [splitFirstSep] at h
      by_cases hnn : c1 = '\n' ∧ c2 = '\n'
      · rw [if_pos hnn] at h
        injection h with h1
        injection h1 with hx hy
        subst hx hy
        simp only [List.cons_append, splitFirstSep]
        rw [if_pos hnn]
        rfl
      · rw [if_neg hnn] at h
        rcases hs : splitFirstSep (c2 :: rest2) with _ | ⟨p1, p2⟩
        · rw [hs] at h; cases h
        · rw [hs] at h
          injection h with h1
          injection h1 with hx hy
          subst hx hy
          have hrec := ih hs
          simp only [List.cons_append, List.append_eq, splitFirstSep]
          rw [if_neg hnn]
          rw [List.cons_append] at hrec
          rw [hrec]
          rfl

theorem splitFirstSep_some_length {a x y : List Char}
    (h : splitFirstSep a = some (x, y)) : y.length < a.length := by
  induction a generalizing x y with
  | nil => cases h
  | cons c1 rest ih =>
    cases rest with
    | nil => cases h
    | cons c2 rest2 =>
      simp only [splitFirstSep] at h
      by_cases hnn : c1 = '\n' ∧ c2 = '\n'
      · rw [if_pos hnn] at h
        injection h with h1
        injection h1 with hx hy
        subst hy
        simp only [List.length_cons]
        omega
      · rw [if_neg hnn] at h
        rcases hs : splitFirstSep (c2 :: rest2) with _ | ⟨p1, p2⟩
        · rw [hs] at h; cases h
        · rw [hs] at h
          injection h with h1
          injection h1 with hx hy
          subst hy
          have := ih hs
          simp only [List.length_cons] at this ⊢
          omega

theorem extractBlocksF_congr :
    ∀ (f g : Nat) (buf : List Char), buf.length < f → buf.length < g →
      extractBlocksF f buf = extractBlocksF g buf := by
  intro f
  induction f with
  | zero => intro g buf hf; omega
  | succ f ih =>
    intro g buf hf hg
    cases g with
    | zero => omega
    | succ g =>
      simp only [extractBlocksF]
      cases hs : splitFirstSep buf with
      | none => rfl
      | some p =>
        have := splitFirstSep_some_length (a := buf) (x := p.1) (y := p.2)
          (by rw [hs])
        dsimp only
        rw [ih g p.2 (by omega) (by omega)]

theorem extractBlocks_none {buf : List Char} (h : splitFirstSep buf = none) :
    extractBlocks buf = ([], buf) := by
  unfold extractBlocks
  simp only [extractBlocksF, h]

theorem extractBlocks_some {buf blk rest : List Char}
    (h : splitFirstSep buf = some (blk, rest)) :
    extractBlocks buf =
      (blk :: (extractBlocks rest).1, (extractBlocks rest).2) := by
  have hlen := splitFirstSep_some_length h
  set E := extractBlocks rest with hE
  unfold extractBlocks
  simp only [extractBlocksF, h]
  rw [extractBlocksF_congr buf.length (rest.length + 1) rest (by omega) (by omega)]
  rw [hE]
  rfl

theorem extractBlocks_snd_none_aux :
    ∀ (n : Nat) (buf : List Char), buf.length ≤ n →
      splitFirstSep (extractBlocks buf).2 = none := by
  intro n
  induction n with
  | zero =>
    intro buf hb
    have hnil : buf = [] := List.eq_nil_of_length_eq_zero (by omega)
    subst hnil
    have h0 : extractBlocks ([] : List Char) = ([], []) := @extractBlocks_none [] rfl
    rw [h0]
    rfl
  | succ n ih =>
    intro buf hb
    cases hs : splitFirstSep buf with
    | none =>
      rw [extractBlocks_none hs]
      exact hs
    | some p =>
      have hsp : splitFirstSep buf = some (p.1, p.2) := by rw [hs]
      rw [extractBlocks_some hsp]
      exact ih p.2 (by have := splitFirstSep_some_length hsp; omega)

theorem extractBlocks_snd_none (buf : List Char) :
    splitFirstSep (extractBlocks buf).2 = none :=
  extractBlocks_snd_none_aux buf.length buf (le_refl _)

theorem extractBlocks_append_aux :
    ∀ (n : Nat) (a m : List Char), a.length ≤ n →
      extractBlocks (a ++ m) =
        ((extractBlocks a).1 ++ (extractBlocks ((extractBlocks a).2 ++ m)).1,
         (extractBlocks ((extractBlocks a).2 ++ m)).2) := by
  intro n
  induction n with
  | zero =>
    intro a m ha
    have hnil : a = [] := List.eq_nil_of_length_eq_zero (by omega)
    subst hnil
    have h0 : extractBlocks ([] : List Char) = ([], []) := @extractBlocks_none [] rfl
    rw [h0]
    simp
  | succ n ih =>
    intro a m ha
    cases hs : splitFirstSep a with
    | none =>
      rw [extractBlocks_none hs]
      simp
    | some p =>
      have hsp : splitFirstSep a = some (p.1, p.2) := by rw [hs]
      rw [extractBlocks_some hsp,
          extractBlocks_some (splitFirstSep_some_append hsp m),
          ih p.2 m (by have := splitFirstSep_some_length hsp; omega)]
      rfl

theorem extractBlocks_append (a m : List Char) :
    extractBlocks (a ++ m) =
      ((extractBlocks a).1 ++ (extractBlocks ((extractBlocks a).2 ++ m)).1,
       (extractBlocks ((extractBlocks a).2 ++ m)).2) :=
  extractBlocks_append_aux a.length a m (le_refl _)

/-! Helper lemmas for claim C5: composing the two incremental layers. -/

theorem feedChunk_pending_stall (st : DecState) (c : List Nat) :
    utf8DecodeGreedy (feedChunk st c).1.pending =
      ([], (feedChunk st c).1.pending) := by
  simp only [feedChunk]
  exact utf8DecodeGreedy_snd_stall _

theorem feedChunk_buf_none (st : DecState) (c : List Nat) :
    splitFirstSep (feedChunk st c).1.buf = none := by
  simp only [feedChunk]
  exact extractBlocks_snd_none _

theorem feedChunk_append (st : DecState) (c1 c2 : List Nat) :
    feedChunk st (c1 ++ c2) =
      ((feedChunk (feedChunk st c1).1 c2).1,
       (feedChunk st c1).2 ++ (feedChunk (feedChunk st c1).1 c2).2) := by
  have hg := utf8DecodeGreedy_append (st.pending ++ c1) c2
  have he := extractBlocks_append (st.buf ++ (utf8DecodeGreedy (st.pending ++ c1)).1)
      ((utf8DecodeGreedy ((utf8DecodeGreedy (st.pending ++ c1)).2 ++ c2)).1)
  simp only [feedChunk]
  rw [← List.append_assoc st.pending c1 c2, hg]
  dsimp only
  rw [← List.append_assoc st.buf _ _, he]

theorem runChunks_feedAll :
    ∀ (chunks : List (List Nat)) (st : DecState),
      utf8DecodeGreedy st.pending = ([], st.pending) →
      splitFirstSep st.buf = none →
      runChunks st chunks = (feedChunk st (concatAll chunks)).2 := by
  intro chunks
  induction chunks with
  | nil =>
    intro st hp hb
    simp only [runChunks, concatAll, feedChunk]
    rw [List.append_nil, hp]
    dsimp only
    rw [List.append_nil, extractBlocks_none hb]
  | cons c cs ih =>
    intro st hp hb
    simp only [runChunks, concatAll]
    rw [feedChunk_append st c (concatAll cs)]
    rw [ih (feedChunk st c).1 (feedChunk_pending_stall st c) (feedChunk_buf_none st c)]

theorem decodeChunks_flatten (chunks : List (List Nat)) :
    decodeChunks chunks = decodeChunks [concatAll chunks] := by
  unfold decodeChunks
  have hp : utf8DecodeGreedy (DecState.mk [] []).pending =
      ([], (DecState.mk [] []).pending) := @utf8DecodeGreedy_done [] rfl
  rw [runChunks_feedAll chunks ⟨[], []⟩ hp rfl]
  simp only [runChunks]
  rw [List.append_nil]

/-! Claim C5. -/

/-- C5: for every sequence of frame-blocks (given as the UTF-8 bytes of
its text), splitting the bytes across arbitrary chunk boundaries —
including inside a multi-byte UTF-8 character — yields exactly the same
decoded `EventFrame` sequence as delivering all bytes in one chunk. -/
theorem c5_chunk_invariance (text : List Char) (chunks : List (List Nat))
    (h : concatAll chunks = utf8Encode text) :
    framesOfChunks chunks = framesOfChunks [utf8Encode text] := by
  unfold framesOfChunks
  rw [decodeChunks_flatten chunks, h]

/-- C5 witness: a delta frame containing a two-byte `é`, split into two
chunks with the boundary between the two bytes of the `é`, decodes to the
same frames as the unsplit stream. -/
theorem c5_witness :
    concatAll c5Chunks = utf8Encode c5Text ∧
    framesOfChunks c5Chunks = framesOfChunks [utf8Encode c5Text] :=
  ⟨rfl, c5_chunk_invariance c5Text c5Chunks rfl⟩
